import Mathlib

/-!
Verification development for the realtime audio session manager and the
interactive image cropper of the studio client.

The definitions below are shallow embeddings of the TypeScript source:
byte buffers are lists of naturals (each < 256), 16-bit PCM samples are
integers, audio sample values and clock times are rationals, and the
browser host primitives used by the code (`btoa`/`atob`, typed arrays,
`AudioContext.createBuffer`) are modelled by their standard semantics.
-/

/-- Character codes of the standard base64 alphabet
`A-Z a-z 0-9 + /`, in table order.  Index `n` holds the code of the
digit for sextet value `n`.  This models the alphabet used by the host
primitives `btoa` and `atob`. -/
def base64Chars : List Nat :=
  [65, 66, 67, 68, 69, 70, 71, 72, 73, 74, 75, 76, 77, 78, 79, 80, 81,
   82, 83, 84, 85, 86, 87, 88, 89, 90,
   97, 98, 99, 100, 101, 102, 103, 104, 105, 106, 107, 108, 109, 110,
   111, 112, 113, 114, 115, 116, 117, 118, 119, 120, 121, 122,
   48, 49, 50, 51, 52, 53, 54, 55, 56, 57,
   43, 47]

/-- Character code of the base64 digit for a sextet value. -/
def encodeB64Digit (n : Nat) : Nat := base64Chars.getD n 0

/-- Sextet value of a base64 digit given by character code
(the position of the code in the alphabet table). -/
def decodeB64Digit (c : Nat) : Nat := base64Chars.indexOf c

/-- Model of the host primitive `btoa` applied to a binary string whose
character codes are the given bytes: groups of three bytes become four
base64 digits; a trailing group of one or two bytes is padded with `=`
(character code 61).  The result is the list of character codes of the
base64 string. -/
def btoaBytes : List Nat → List Nat
  | [] => []
  | [b0] =>
      [encodeB64Digit (b0 / 4), encodeB64Digit (b0 % 4 * 16), 61, 61]
  | [b0, b1] =>
      [encodeB64Digit (b0 / 4), encodeB64Digit (b0 % 4 * 16 + b1 / 16),
       encodeB64Digit (b1 % 16 * 4), 61]
  | b0 :: b1 :: b2 :: rest =>
      encodeB64Digit (b0 / 4) ::
      encodeB64Digit (b0 % 4 * 16 + b1 / 16) ::
      encodeB64Digit (b1 % 16 * 4 + b2 / 64) ::
      encodeB64Digit (b2 % 64) :: btoaBytes rest

/-- Model of the host primitive `atob` on well-formed base64 input (the
range of `btoaBytes`): four digits become three bytes, and `=` padding
(character code 61, never a digit of the alphabet) marks a short final
group of one or two bytes. -/
def atobBytes : List Nat → List Nat
  | c0 :: c1 :: c2 :: c3 :: rest =>
      let s0 := decodeB64Digit c0
      let s1 := decodeB64Digit c1
      if c2 = 61 then
        [s0 * 4 + s1 / 16]
      else
        let s2 := decodeB64Digit c2
        if c3 = 61 then
          [s0 * 4 + s1 / 16, s1 % 16 * 16 + s2 / 4]
        else
          (s0 * 4 + s1 / 16) :: (s1 % 16 * 16 + s2 / 4) ::
          (s2 % 4 * 64 + decodeB64Digit c3) :: atobBytes rest
  | _ => []

/-- `encode` from the source (lines 398–405 of the service module):
builds the binary string of the byte array character by character and
base64-encodes it with `btoa`.  The result is the list of character
codes of the transport string. -/
def encodeTransport (bytes : List Nat) : List Nat := btoaBytes bytes

/-- `decode` from the source (lines 388–396 of the service module):
`atob` on the transport string followed by reading each character code
back into a byte. -/
def decodeTransport (s : List Nat) : List Nat := atobBytes s

theorem decodeB64Digit_encodeB64Digit :
    ∀ n < 64, decodeB64Digit (encodeB64Digit n) = n := by decide

theorem encodeB64Digit_ne_61 : ∀ n < 64, encodeB64Digit n ≠ 61 := by decide

theorem atobBytes_btoaBytes (b : List Nat) (h : ∀ x ∈ b, x < 256) :
    atobBytes (btoaBytes b) = b := by
  induction b using btoaBytes.induct with
  | case1 => rfl
  | case2 b0 =>
      have hb0 : b0 < 256 := h b0 (by simp)
      simp only [btoaBytes, atobBytes, if_true]
      rw [decodeB64Digit_encodeB64Digit (b0 / 4) (by omega),
          decodeB64Digit_encodeB64Digit (b0 % 4 * 16) (by omega)]
      have e0 : b0 / 4 * 4 + b0 % 4 * 16 / 16 = b0 := by omega
      rw [e0]
  | case3 b0 b1 =>
      have hb0 : b0 < 256 := h b0 (by simp)
      have hb1 : b1 < 256 := h b1 (by simp)
      simp only [btoaBytes, atobBytes, if_true]
      rw [if_neg (encodeB64Digit_ne_61 (b1 % 16 * 4) (by omega))]
      rw [decodeB64Digit_encodeB64Digit (b0 / 4) (by omega),
          decodeB64Digit_encodeB64Digit (b0 % 4 * 16 + b1 / 16) (by omega),
          decodeB64Digit_encodeB64Digit (b1 % 16 * 4) (by omega)]
      have e0 : b0 / 4 * 4 + (b0 % 4 * 16 + b1 / 16) / 16 = b0 := by omega
      have e1 : (b0 % 4 * 16 + b1 / 16) % 16 * 16 + b1 % 16 * 4 / 4 = b1 := by
        omega
      rw [e0, e1]
  | case4 b0 b1 b2 rest ih =>
      have hb0 : b0 < 256 := h b0 (by simp)
      have hb1 : b1 < 256 := h b1 (by simp)
      have hb2 : b2 < 256 := h b2 (by simp)
      have hrest : ∀ x ∈ rest, x < 256 := fun x hx => h x (by simp [hx])
      simp only [btoaBytes, atobBytes]
      rw [if_neg (encodeB64Digit_ne_61 (b1 % 16 * 4 + b2 / 64) (by omega)),
          if_neg (encodeB64Digit_ne_61 (b2 % 64) (by omega))]
      rw [decodeB64Digit_encodeB64Digit (b0 / 4) (by omega),
          decodeB64Digit_encodeB64Digit (b0 % 4 * 16 + b1 / 16) (by omega),
          decodeB64Digit_encodeB64Digit (b1 % 16 * 4 + b2 / 64) (by omega),
          decodeB64Digit_encodeB64Digit (b2 % 64) (by omega)]
      rw [ih hrest]
      have e0 : b0 / 4 * 4 + (b0 % 4 * 16 + b1 / 16) / 16 = b0 := by omega
      have e1 : (b0 % 4 * 16 + b1 / 16) % 16 * 16 +
          (b1 % 16 * 4 + b2 / 64) / 4 = b1 := by omega
      have e2 : (b1 % 16 * 4 + b2 / 64) % 4 * 64 + b2 % 64 = b2 := by omega
      rw [e0, e1, e2]

/-- C10: the transport framing helpers `encode` and `decode` are exact
inverses on byte arrays: for every byte array `b`,
`decode (encode b) = b`. -/
theorem c10_transport_roundtrip (b : List Nat) (h : ∀ x ∈ b, x < 256) :
    decodeTransport (encodeTransport b) = b :=
  atobBytes_btoaBytes b h

/-- Witness for C10 at a concrete byte array. -/
theorem c10_transport_roundtrip_witness :
    decodeTransport (encodeTransport [0, 128, 255, 17, 3]) = [0, 128, 255, 17, 3] :=
  c10_transport_roundtrip [0, 128, 255, 17, 3] (by decide)

/-- JS truncation toward zero on rationals: the integer step of the
conversion the host applies when a number is stored into an integer
typed array element. -/
def jsTrunc (x : ℚ) : ℤ := if 0 ≤ x then ⌊x⌋ else ⌈x⌉

/-- JS `ToInt16` conversion: truncate toward zero, reduce modulo 2^16,
and reinterpret values at or above 2^15 as negative.  This is the
conversion the host applies on assignment to an `Int16Array` element,
as in `int16[i] = data[i] * 32768` of `createBlob`. -/
def toInt16JS (x : ℚ) : ℤ :=
  let m := jsTrunc x % 65536
  if m < 32768 then m else m - 65536

/-- Little-endian serialization of signed 16-bit values into bytes,
modelling the reinterpretation `new Uint8Array(int16.buffer)` performed
by `createBlob`. -/
def int16sToBytes : List ℤ → List Nat
  | [] => []
  | v :: rest =>
      ((v % 65536).toNat % 256) :: ((v % 65536).toNat / 256) :: int16sToBytes rest

/-- Reinterpretation of a little-endian byte buffer as signed 16-bit
values, modelling `new Int16Array(data.buffer)` as performed by
`decodeAudioData` (a trailing odd byte cannot occur there: the
constructor has already rejected odd lengths). -/
def bytesToInt16s : List Nat → List ℤ
  | b0 :: b1 :: rest =>
      (if b0 + 256 * b1 < 32768 then ((b0 + 256 * b1 : Nat) : ℤ)
       else ((b0 + 256 * b1 : Nat) : ℤ) - 65536) :: bytesToInt16s rest
  | _ => []

/-- Transport audio frame: base64 payload (as character codes) plus the
fixed mime-type tag. -/
structure PcmBlob where
  data : List Nat
  mimeType : String
deriving DecidableEq, Repr

/-- `createBlob` from the source (lines 426–436): each float sample is
multiplied by 32768 and stored into an `Int16Array` (the host applies
the `ToInt16` conversion), the backing buffer is reinterpreted as bytes
and base64-encoded by `encode`, tagged `audio/pcm;rate=16000`. -/
def createBlob (data : List ℚ) : PcmBlob :=
  { data := encodeTransport (int16sToBytes (data.map fun x => toInt16JS (x * 32768)))
    mimeType := "audio/pcm;rate=16000" }

/-- `decodeAudioData` from the source (lines 407–424), with the host
semantics of the primitives it calls made explicit: `new
Int16Array(data.buffer)` throws a `RangeError` when the byte length is
odd; `frameCount = dataInt16.length / numChannels` is computed in JS
real arithmetic and `ctx.createBuffer` converts it to an unsigned
integer by truncation, throwing a `NotSupportedError` when that is
zero; the copy loop `for (i < frameCount)` stores
`dataInt16[i * numChannels + channel] / 32768` into the channel data,
and stores past the created buffer length (possible when `frameCount`
is fractional) are discarded by the host typed array, so the effective
frame count is the integer division.  The result is the per-channel
sample data of the created `AudioBuffer`. -/
def decodeAudioData (data : List Nat) (sampleRate numChannels : Nat) :
    Except String (List (List ℚ)) :=
  if data.length % 2 ≠ 0 then
    Except.error "RangeError: byte length is not a multiple of 2"
  else
    let dataInt16 := bytesToInt16s data
    let frameCount := dataInt16.length / numChannels
    if frameCount = 0 then
      Except.error "NotSupportedError: createBuffer with zero frames"
    else
      Except.ok ((List.range numChannels).map fun channel =>
        (List.range frameCount).map fun i =>
          ((dataInt16.getD (i * numChannels + channel) 0 : ℤ) : ℚ) / 32768)

theorem int16sToBytes_lt (l : List ℤ) : ∀ x ∈ int16sToBytes l, x < 256 := by
  induction l with
  | nil => intro x hx; simp [int16sToBytes] at hx
  | cons v rest ih =>
      intro x hx
      simp only [int16sToBytes, List.mem_cons] at hx
      rcases hx with h | h | h
      · omega
      · have : (v % 65536).toNat < 65536 := by omega
        omega
      · exact ih x h

theorem int16sToBytes_length (l : List ℤ) :
    (int16sToBytes l).length = 2 * l.length := by
  induction l with
  | nil => rfl
  | cons v rest ih => simp [int16sToBytes, ih]; omega

theorem bytesToInt16s_length (b : List Nat) :
    (bytesToInt16s b).length = b.length / 2 := by
  induction b using bytesToInt16s.induct with
  | case1 b0 b1 rest ih =>
      simp only [bytesToInt16s, List.length_cons, ih]
      omega
  | case2 b hb =>
      rcases b with _ | ⟨b0, t⟩
      · rfl
      · rcases t with _ | ⟨b1, t2⟩
        · simp [bytesToInt16s]
        · exact absurd rfl (hb b0 b1 t2)

theorem bytesToInt16s_int16sToBytes (l : List ℤ)
    (h : ∀ v ∈ l, -32768 ≤ v ∧ v < 32768) :
    bytesToInt16s (int16sToBytes l) = l := by
  induction l with
  | nil => rfl
  | cons v rest ih =>
      obtain ⟨h1, h2⟩ := h v (by simp)
      have hrest := fun x hx => h x (List.mem_cons_of_mem _ hx)
      simp only [int16sToBytes, bytesToInt16s]
      rw [ih hrest]
      have e0 : (if (v % 65536).toNat % 256 + 256 * ((v % 65536).toNat / 256) < 32768
          then (((v % 65536).toNat % 256 + 256 * ((v % 65536).toNat / 256) : Nat) : ℤ)
          else (((v % 65536).toNat % 256 + 256 * ((v % 65536).toNat / 256) : Nat) : ℤ) - 65536)
          = v := by
        split <;> omega
      rw [e0]

theorem jsTrunc_mem (y : ℚ) (h1 : -32768 ≤ y) (h2 : y < 32768) :
    -32768 ≤ jsTrunc y ∧ jsTrunc y < 32768 := by
  unfold jsTrunc
  split
  · constructor
    · have hf : (0 : ℤ) ≤ ⌊y⌋ := Int.floor_nonneg.mpr (by assumption)
      omega
    · exact Int.floor_lt.mpr (by exact_mod_cast h2)
  · constructor
    · have hc : y ≤ (⌈y⌉ : ℚ) := Int.le_ceil y
      have : ((-32768 : ℤ) : ℚ) ≤ (⌈y⌉ : ℚ) := by push_cast; linarith
      exact_mod_cast this
    · have hy : y ≤ ((0 : ℤ) : ℚ) := by
        push_cast
        linarith [not_le.mp (by assumption : ¬0 ≤ y)]
      have hc : ⌈y⌉ ≤ 0 := Int.ceil_le.mpr hy
      omega

theorem toInt16JS_eq_jsTrunc (y : ℚ) (h1 : -32768 ≤ y) (h2 : y < 32768) :
    toInt16JS y = jsTrunc y := by
  have hb := jsTrunc_mem y h1 h2
  simp only [toInt16JS]
  split <;> omega

theorem jsTrunc_err (y : ℚ) : |y - (jsTrunc y : ℚ)| ≤ 1 := by
  unfold jsTrunc
  split
  · rw [abs_le]
    constructor <;> linarith [Int.floor_le y, Int.lt_floor_add_one y]
  · rw [abs_le]
    constructor <;> linarith [Int.le_ceil y, Int.ceil_lt_add_one y]

/-- The exact value a sample in `[-1, 1)` comes back as after the
16-bit quantization of `createBlob` followed by the normalization of
`decodeAudioData`. -/
def quantizeSample (x : ℚ) : ℚ := (toInt16JS (x * 32768) : ℚ) / 32768

theorem quantizeSample_err (x : ℚ) (h1 : -1 ≤ x) (h2 : x < 1) :
    |quantizeSample x - x| ≤ 1 / 32768 := by
  have hy1 : (-32768 : ℚ) ≤ x * 32768 := by linarith
  have hy2 : x * 32768 < 32768 := by linarith
  rw [quantizeSample, toInt16JS_eq_jsTrunc _ hy1 hy2]
  have herr := jsTrunc_err (x * 32768)
  rw [abs_le] at herr ⊢
  constructor <;> [linarith [herr.2]; linarith [herr.1]]

theorem toInt16JS_sample_mem (x : ℚ) (h1 : -1 ≤ x) (h2 : x < 1) :
    -32768 ≤ toInt16JS (x * 32768) ∧ toInt16JS (x * 32768) < 32768 := by
  have hy1 : (-32768 : ℚ) ≤ x * 32768 := by linarith
  have hy2 : x * 32768 < 32768 := by linarith
  rw [toInt16JS_eq_jsTrunc _ hy1 hy2]
  exact jsTrunc_mem _ hy1 hy2

theorem range_map_getD {α β : Type} (l : List α) (d : α) (f : α → β) :
    (List.range l.length).map (fun i => f (l.getD i d)) = l.map f := by
  induction l with
  | nil => rfl
  | cons a t ih =>
      rw [List.length_cons, List.range_succ_eq_map, List.map_cons, List.map_map,
          List.map_cons]
      refine congrArg (List.cons (f a)) ?_
      show (List.range t.length).map (fun i => f (t.getD i d)) = t.map f
      exact ih

/-- End-to-end inbound reconstruction of an outbound-encoded payload,
as the `onmessage` handler performs it on a message whose audio data is
the transport payload produced by `createBlob`: base64 decode with
`decode`, then `decodeAudioData` with one channel. -/
def liveRoundTrip (samples : List ℚ) : Except String (List (List ℚ)) :=
  decodeAudioData (decodeTransport (createBlob samples).data) 24000 1

instance {ε α : Type} [DecidableEq ε] [DecidableEq α] : DecidableEq (Except ε α)
  | Except.error e, Except.error f =>
      if h : e = f then isTrue (by rw [h]) else isFalse (fun hc => h (by injection hc))
  | Except.error _, Except.ok _ => isFalse (fun hc => Except.noConfusion hc)
  | Except.ok _, Except.error _ => isFalse (fun hc => Except.noConfusion hc)
  | Except.ok x, Except.ok y =>
      if h : x = y then isTrue (by rw [h]) else isFalse (fun hc => h (by injection hc))

theorem toInt16JS_mem (x : ℚ) : -32768 ≤ toInt16JS x ∧ toInt16JS x < 32768 := by
  simp only [toInt16JS]
  split <;> omega

theorem liveRoundTrip_eq (samples : List ℚ) (hne : samples ≠ []) :
    liveRoundTrip samples = Except.ok [samples.map quantizeSample] := by
  have hvals : ∀ v ∈ samples.map (fun x => toInt16JS (x * 32768)),
      -32768 ≤ v ∧ v < 32768 := by
    intro v hv
    rw [List.mem_map] at hv
    obtain ⟨x, _, rfl⟩ := hv
    exact toInt16JS_mem (x * 32768)
  have hbytes := int16sToBytes_lt (samples.map fun x => toInt16JS (x * 32768))
  have hdec : decodeTransport (createBlob samples).data =
      int16sToBytes (samples.map fun x => toInt16JS (x * 32768)) :=
    atobBytes_btoaBytes _ hbytes
  rw [liveRoundTrip, hdec]
  have hlen : (int16sToBytes (samples.map fun x => toInt16JS (x * 32768))).length
      = 2 * samples.length := by
    rw [int16sToBytes_length, List.length_map]
  have hint : bytesToInt16s (int16sToBytes (samples.map fun x => toInt16JS (x * 32768)))
      = samples.map fun x => toInt16JS (x * 32768) :=
    bytesToInt16s_int16sToBytes _ hvals
  have hne2 : samples.length ≠ 0 := fun hc => hne (List.eq_nil_of_length_eq_zero hc)
  simp only [decodeAudioData, hint, hlen]
  rw [if_neg (by omega)]
  rw [if_neg (by rw [List.length_map, Nat.div_one]; exact hne2)]
  rw [Nat.div_one, show List.range 1 = [0] from by decide]
  simp only [List.map_cons, List.map_nil, mul_one, add_zero]
  rw [range_map_getD (samples.map fun x => toInt16JS (x * 32768)) 0
    (fun v => ((v : ℤ) : ℚ) / 32768)]
  rw [List.map_map]
  rfl

/-- C1 as stated is false at the in-range sample value 1: the claim
admits every sample in `[-1, 1]`, but `createBlob` stores
`1 * 32768 = 32768` into the `Int16Array`, where the `ToInt16`
conversion wraps it to `-32768`, so the round trip reconstructs the
sample as `-1` — an absolute error of 2, far above `1/32768`. -/
theorem c1_codec_roundtrip_counterexample :
    liveRoundTrip [1] = Except.ok [[-1]] ∧
      (-1 : ℚ) ≤ 1 ∧ (1 : ℚ) ≤ 1 ∧ ¬(|(-1 : ℚ) - 1| ≤ 1 / 32768) := by
  have h := liveRoundTrip_eq [1] (by simp)
  have hq : quantizeSample 1 = -1 := by
    rw [quantizeSample, show (1 : ℚ) * 32768 = 32768 from one_mul _,
        show toInt16JS 32768 = -32768 from by decide]
    norm_num
  rw [List.map_cons, List.map_nil, hq] at h
  refine ⟨h, by norm_num, le_refl 1, by norm_num⟩

/-- C1 (amended): for every nonempty sequence of samples each in
`[-1, 1)`, decoding the encoded 16-bit PCM transport payload
(`createBlob`, then base64 `decode`, then `decodeAudioData` with one
channel) yields a single channel with one reconstructed sample per
input sample, each within `1/32768` absolute error of the original.
The original claim over `[-1, 1]` fails only at samples equal to 1
(wrapped to -1) and at the empty sequence (zero-frame decode error). -/
theorem c1_codec_roundtrip_amended (samples : List ℚ) (hne : samples ≠ [])
    (h : ∀ x ∈ samples, -1 ≤ x ∧ x < 1) :
    liveRoundTrip samples = Except.ok [samples.map quantizeSample] ∧
      ∀ x ∈ samples, |quantizeSample x - x| ≤ 1 / 32768 := by
  refine ⟨liveRoundTrip_eq samples hne, fun x hx => ?_⟩
  obtain ⟨h1, h2⟩ := h x hx
  exact quantizeSample_err x h1 h2

/-- Witness for the amended C1 at a concrete two-sample sequence. -/
theorem c1_codec_roundtrip_amended_witness :
    liveRoundTrip [0, -1] = Except.ok [[0, -1].map quantizeSample] ∧
      ∀ x ∈ [(0 : ℚ), -1], |quantizeSample x - x| ≤ 1 / 32768 :=
  c1_codec_roundtrip_amended [0, -1] (by simp)
    (by
      intro x hx
      simp only [List.mem_cons, List.not_mem_nil, or_false] at hx
      rcases hx with rfl | rfl <;> norm_num)

/-- C7 is false as stated: with 2 channels, a 6-byte input (byte length
not a multiple of `2 * channelCount = 4`) does not throw — the
fractional frame count is truncated by `createBuffer` and the partial
frame dropped; and the empty input (byte length 0, a multiple of every
`2 * channelCount`) throws, because `createBuffer` rejects a zero frame
count. -/
theorem c7_decode_failure_counterexample :
    (decodeAudioData [0, 0, 0, 0, 0, 0] 24000 2).isOk = true ∧ 6 % (2 * 2) ≠ 0 ∧
      (decodeAudioData [] 24000 1).isOk = false ∧ 0 % (2 * 1) = 0 := by
  refine ⟨by decide, by decide, by decide, rfl⟩

/-- C7 (amended): `decodeAudioData` throws iff the byte length is odd
(the `Int16Array` construction) or the buffer holds fewer than
`channelCount` 16-bit samples (zero-frame `createBuffer`); on success
it returns `channelCount` channels of
`⌊byteLength / 2 / channelCount⌋` frames — equal to
`byteLength / (2 * channelCount)` when the length is an exact positive
multiple — frame `i` of channel `c` being 16-bit sample
`i * channelCount + c` divided by 32768. -/
theorem c7_decode_failure_amended (data : List Nat) (sampleRate numChannels : Nat) :
    ((decodeAudioData data sampleRate numChannels).isOk = true ↔
      data.length % 2 = 0 ∧ 0 < data.length / 2 / numChannels) ∧
    (data.length % 2 = 0 → 0 < data.length / 2 / numChannels →
      decodeAudioData data sampleRate numChannels =
        Except.ok ((List.range numChannels).map fun channel =>
          (List.range (data.length / 2 / numChannels)).map fun i =>
            (((bytesToInt16s data).getD (i * numChannels + channel) 0 : ℤ) : ℚ) / 32768)) := by
  have hlen := bytesToInt16s_length data
  by_cases h1 : data.length % 2 = 0
  · by_cases h2 : data.length / 2 / numChannels = 0
    · have he : decodeAudioData data sampleRate numChannels =
          Except.error "NotSupportedError: createBuffer with zero frames" := by
        simp only [decodeAudioData]
        rw [if_neg (by omega), if_pos (by rw [hlen]; omega)]
      constructor
      · rw [he]
        constructor
        · intro hf
          exact absurd hf (by decide)
        · intro hc
          exact absurd h2 (by omega)
      · intro _ hc
        exact absurd h2 (by omega)
    · have hok : decodeAudioData data sampleRate numChannels =
          Except.ok ((List.range numChannels).map fun channel =>
            (List.range (data.length / 2 / numChannels)).map fun i =>
              (((bytesToInt16s data).getD (i * numChannels + channel) 0 : ℤ) : ℚ) / 32768) := by
        simp only [decodeAudioData]
        rw [if_neg (by omega), if_neg (by rw [hlen]; omega), hlen]
      constructor
      · rw [hok]
        constructor
        · intro _
          exact ⟨h1, Nat.pos_of_ne_zero h2⟩
        · intro _
          rfl
      · intro _ _
        exact hok
  · have he : decodeAudioData data sampleRate numChannels =
        Except.error "RangeError: byte length is not a multiple of 2" := by
      simp only [decodeAudioData]
      rw [if_pos (by omega)]
    constructor
    · rw [he]
      constructor
      · intro hf
        exact absurd hf (by decide)
      · intro hc
        exact absurd hc.1 h1
    · intro ha _
      exact absurd ha h1

/-- Witness for the amended C7: a 4-byte, 2-channel decode succeeds
with one frame per channel. -/
theorem c7_decode_failure_amended_witness :
    decodeAudioData [1, 0, 2, 0] 44100 2 =
      Except.ok ((List.range 2).map fun channel =>
        (List.range ([1, 0, 2, 0].length / 2 / 2)).map fun i =>
          (((bytesToInt16s [1, 0, 2, 0]).getD (i * 2 + channel) 0 : ℤ) : ℚ) / 32768) :=
  (c7_decode_failure_amended [1, 0, 2, 0] 44100 2).2 (by decide) (by decide)

/-- State of the playback scheduler globals of the service module:
`nextStartTime` (line 386) and the `activeSources` set (line 385),
with source nodes identified by creation order; `stoppedSources`
records every node on which `stop()` has been invoked. -/
structure PlaybackState where
  nextStartTime : ℚ
  activeSources : List Nat
  stoppedSources : List Nat
  nextSourceId : Nat
deriving DecidableEq, Repr

/-- The audio branch of `onmessage` (lines 527–546): on a message with
an audio payload, `nextStartTime` is first raised to the output clock
(`nextStartTime = max(nextStartTime, ctx.currentTime)`), a source node
is created for the decoded buffer and started at `nextStartTime`,
`nextStartTime` advances by the buffer duration, and the node joins
`activeSources`.  Returns the new state and the scheduled start
time. -/
def scheduleChunk (st : PlaybackState) (currentTime duration : ℚ) :
    PlaybackState × ℚ :=
  let start := max st.nextStartTime currentTime
  ({ nextStartTime := start + duration
     activeSources := st.activeSources ++ [st.nextSourceId]
     stoppedSources := st.stoppedSources
     nextSourceId := st.nextSourceId + 1 }, start)

/-- The interruption branch of `onmessage` (lines 548–554): every node
in `activeSources` is stopped, the set is cleared, and `nextStartTime`
is reset to 0. -/
def interruptPlayback (st : PlaybackState) : PlaybackState :=
  { nextStartTime := 0
    activeSources := []
    stoppedSources := st.stoppedSources ++ st.activeSources
    nextSourceId := st.nextSourceId }

/-- The `ended` listener registered on each source (lines 540–542):
natural completion removes the node from `activeSources`. -/
def sourceEnded (st : PlaybackState) (id : Nat) : PlaybackState :=
  { st with activeSources := st.activeSources.filter (fun s => s != id) }

/-- One inbound transport message as consumed by `onmessage`: an
optional audio payload (represented by the duration of its decoded
buffer) and the `interrupted` flag.  The two signals are independent
and may co-occur in one message. -/
structure ServerMessage where
  audioDuration : Option ℚ
  interrupted : Bool
deriving DecidableEq, Repr

/-- The audio phase of the `onmessage` handler (lines 526–546): runs
the scheduling branch when a payload is present. -/
def onmessageAudioPhase (st : PlaybackState) (currentTime : ℚ)
    (msg : ServerMessage) : PlaybackState :=
  match msg.audioDuration with
  | some d => (scheduleChunk st currentTime d).1
  | none => st

/-- The `onmessage` handler (lines 525–554) for one message, processed
to completion at output-clock time `currentTime`: the audio phase
followed by the interruption branch when the flag is set. -/
def onmessage (st : PlaybackState) (currentTime : ℚ) (msg : ServerMessage) :
    PlaybackState :=
  if msg.interrupted then interruptPlayback (onmessageAudioPhase st currentTime msg)
  else onmessageAudioPhase st currentTime msg

/-- Repeated scheduling of audio-only messages in arrival order: from
the pairs (output-clock time at the scheduling moment, chunk duration),
the list of scheduled start times in order. -/
def scheduleRun (st : PlaybackState) : List (ℚ × ℚ) → List ℚ
  | [] => []
  | (t, d) :: rest => (scheduleChunk st t d).2 :: scheduleRun (scheduleChunk st t d).1 rest

/-- The scheduler state after a prefix of the run. -/
def scheduleState (st : PlaybackState) : List (ℚ × ℚ) → PlaybackState
  | [] => st
  | (t, d) :: rest => scheduleState (scheduleChunk st t d).1 rest

theorem scheduleRun_head_ge (st : PlaybackState) (msgs : List (ℚ × ℚ))
    (h : msgs ≠ []) : st.nextStartTime ≤ (scheduleRun st msgs).getD 0 0 := by
  rcases msgs with _ | ⟨⟨t, d⟩, rest⟩
  · exact absurd rfl h
  · simp only [scheduleRun, List.getD_cons_zero, scheduleChunk]
    exact le_max_left _ _

/-- C2: over any run of audio messages processed in arrival order, the
i-th scheduled start time equals `max(nextStartTime, clockTime)` at the
moment of scheduling, `nextStartTime` is then advanced by exactly that
chunk's duration, and consecutive chunks never overlap: the (i+1)-th
start time is at least the i-th start time plus the i-th duration. -/
theorem c2_scheduling_monotonic (st : PlaybackState) (msgs : List (ℚ × ℚ)) :
    (∀ i, i < msgs.length →
      (scheduleRun st msgs).getD i 0 =
        max (scheduleState st (msgs.take i)).nextStartTime (msgs.getD i (0, 0)).1 ∧
      (scheduleState st (msgs.take (i + 1))).nextStartTime =
        (scheduleRun st msgs).getD i 0 + (msgs.getD i (0, 0)).2) ∧
    (∀ i, i + 1 < msgs.length →
      (scheduleRun st msgs).getD i 0 + (msgs.getD i (0, 0)).2 ≤
        (scheduleRun st msgs).getD (i + 1) 0) := by
  induction msgs generalizing st with
  | nil =>
      exact ⟨fun i hi => absurd hi (by simp), fun i hi => absurd hi (by simp)⟩
  | cons p rest ih =>
      obtain ⟨t, d⟩ := p
      refine ⟨fun i hi => ?_, fun i hi => ?_⟩
      · cases i with
        | zero => exact ⟨rfl, rfl⟩
        | succ n =>
            have hn : n < rest.length := by
              simp only [List.length_cons] at hi
              omega
            have h := (ih (scheduleChunk st t d).1).1 n hn
            simpa [scheduleRun, scheduleState, List.getD_cons_succ,
              List.take_succ_cons] using h
      · cases i with
        | zero =>
            have hne : rest ≠ [] := by
              intro hc
              rw [hc] at hi
              simp at hi
            have hhead := scheduleRun_head_ge (scheduleChunk st t d).1 rest hne
            simp only [scheduleRun, List.getD_cons_zero, List.getD_cons_succ]
            exact hhead
        | succ n =>
            have hn : n + 1 < rest.length := by
              simp only [List.length_cons] at hi
              omega
            have h := (ih (scheduleChunk st t d).1).2 n hn
            simpa [scheduleRun, List.getD_cons_succ] using h

/-- Witness for C2 on a concrete two-chunk run. -/
theorem c2_scheduling_monotonic_witness :
    ((scheduleRun ⟨0, [], [], 0⟩ [(0, 2), (1, 3)]).getD 0 0 =
      max (scheduleState ⟨0, [], [], 0⟩ ([((0 : ℚ), (2 : ℚ)), (1, 3)].take 0)).nextStartTime
        ([((0 : ℚ), (2 : ℚ)), (1, 3)].getD 0 (0, 0)).1) ∧
    ((scheduleRun ⟨0, [], [], 0⟩ [(0, 2), (1, 3)]).getD 0 0 +
        ([((0 : ℚ), (2 : ℚ)), (1, 3)].getD 0 (0, 0)).2 ≤
      (scheduleRun ⟨0, [], [], 0⟩ [(0, 2), (1, 3)]).getD 1 0) := by
  have h := c2_scheduling_monotonic ⟨0, [], [], 0⟩ [(0, 2), (1, 3)]
  exact ⟨(h.1 0 (by decide)).1, h.2 0 (by decide)⟩

/-- C3: immediately after a message carrying the `interrupted` flag is
processed, every node that was in `activeSources` (including one
scheduled by the same message) has been stopped, `activeSources` is
empty, `nextStartTime` is 0, and the next enqueue schedules at a start
time at least the current pipeline time. -/
theorem c3_interrupt_clears (st : PlaybackState) (t : ℚ) (msg : ServerMessage)
    (hmsg : msg.interrupted = true) :
    (onmessage st t msg).activeSources = [] ∧
    (onmessage st t msg).nextStartTime = 0 ∧
    (∀ id ∈ (onmessageAudioPhase st t msg).activeSources,
      id ∈ (onmessage st t msg).stoppedSources) ∧
    ∀ t2 d2 : ℚ, t2 ≤ (scheduleChunk (onmessage st t msg) t2 d2).2 := by
  have hom : onmessage st t msg = interruptPlayback (onmessageAudioPhase st t msg) := by
    rw [onmessage, if_pos hmsg]
  rw [hom]
  refine ⟨rfl, rfl, fun id hid => ?_, fun t2 d2 => ?_⟩
  · exact List.mem_append_right _ hid
  · exact le_max_right _ t2

/-- Witness for C3 on a concrete interrupted message. -/
theorem c3_interrupt_clears_witness :
    (onmessage ⟨5, [0, 1], [], 2⟩ 3 ⟨some 2, true⟩).activeSources = [] ∧
    (onmessage ⟨5, [0, 1], [], 2⟩ 3 ⟨some 2, true⟩).nextStartTime = 0 ∧
    1 ∈ (onmessage ⟨5, [0, 1], [], 2⟩ 3 ⟨some 2, true⟩).stoppedSources ∧
    (7 : ℚ) ≤ (scheduleChunk (onmessage ⟨5, [0, 1], [], 2⟩ 3 ⟨some 2, true⟩) 7 2).2 := by
  have h := c3_interrupt_clears ⟨5, [0, 1], [], 2⟩ 3 ⟨some 2, true⟩ rfl
  exact ⟨h.1, h.2.1, h.2.2.1 1 (by decide), h.2.2.2 7 2⟩

/-- Host calls that the session teardown can perform on held
resources (the transport-close call is included in the vocabulary so
that its absence from a trace is expressible). -/
inductive FxOp where
  | closeInputContext
  | closeOutputContext
  | stopTrack (id : Nat)
  | stopSource (id : Nat)
  | closeSession
deriving DecidableEq, Repr

/-- The module-level session globals (lines 380–386 of the service
module): both audio contexts, the microphone stream (with its track
ids), the resolved session object, the pending session promise, the
scheduled source set, and the playback cursor. -/
structure LiveGlobals where
  activeInputContext : Option Nat
  activeOutputContext : Option Nat
  activeMediaStream : Option (List Nat)
  activeSession : Option Nat
  sessionPromise : Option Nat
  activeSources : List Nat
  nextStartTime : ℚ
deriving DecidableEq, Repr

/-- The initial state of the globals: every slot null or empty, the
cursor at 0. -/
def initialGlobals : LiveGlobals :=
  { activeInputContext := none
    activeOutputContext := none
    activeMediaStream := none
    activeSession := none
    sessionPromise := none
    activeSources := []
    nextStartTime := 0 }

/-- `stopLiveSession` (lines 438–465): nulls the session reference and
the promise (performing no transport-close call), closes and nulls each
audio context that is present, stops and nulls the microphone tracks,
stops every scheduled source (each `stop()` wrapped in try/catch),
clears the source set, and resets `nextStartTime` to 0.  The second
component lists the host calls performed, in order. -/
def stopLiveSession (g : LiveGlobals) : LiveGlobals × List FxOp :=
  ({ activeInputContext := none
     activeOutputContext := none
     activeMediaStream := none
     activeSession := none
     sessionPromise := none
     activeSources := []
     nextStartTime := 0 },
   (match g.activeInputContext with
     | some _ => [FxOp.closeInputContext]
     | none => []) ++
   (match g.activeOutputContext with
     | some _ => [FxOp.closeOutputContext]
     | none => []) ++
   (match g.activeMediaStream with
     | some ts => ts.map FxOp.stopTrack
     | none => []) ++
   g.activeSources.map FxOp.stopSource)

/-- The global session slot is empty: every reference null, no
scheduled sources, cursor reset. -/
def globalsCleared (g : LiveGlobals) : Prop :=
  g.activeSession = none ∧ g.sessionPromise = none ∧
  g.activeInputContext = none ∧ g.activeOutputContext = none ∧
  g.activeMediaStream = none ∧ g.activeSources = [] ∧ g.nextStartTime = 0

instance (g : LiveGlobals) : Decidable (globalsCleared g) := by
  unfold globalsCleared
  infer_instance

/-- C4: `stopLiveSession` is an idempotent teardown — from any state of
the globals one call leaves the slot empty, a second call is a no-op
that performs no host calls and leaves the slot empty, and calling it
in the initial state (before `startLiveSession` ever ran) performs no
host calls and leaves the slot empty.  The embedded body is total: no
branch can throw (source stops are individually wrapped in
try/catch). -/
theorem c4_idempotent_teardown (g : LiveGlobals) :
    globalsCleared (stopLiveSession g).1 ∧
    globalsCleared (stopLiveSession (stopLiveSession g).1).1 ∧
    (stopLiveSession (stopLiveSession g).1).2 = [] ∧
    globalsCleared (stopLiveSession initialGlobals).1 ∧
    (stopLiveSession initialGlobals).2 = [] := by
  exact ⟨⟨rfl, rfl, rfl, rfl, rfl, rfl, rfl⟩,
    ⟨rfl, rfl, rfl, rfl, rfl, rfl, rfl⟩, rfl,
    ⟨rfl, rfl, rfl, rfl, rfl, rfl, rfl⟩, rfl⟩

/-- C5 is false in one conjunct: `stopLiveSession` performs no
transport-close call.  Even with a live resolved session in the slot,
its trace of host calls contains no `closeSession` — the session
reference is only dropped (the source comments this out explicitly and
merely nulls the reference). -/
theorem c5_stop_full_teardown_counterexample :
    (stopLiveSession ⟨some 0, some 1, some [0, 1], some 7, some 7, [3, 4], 9⟩).1.activeSession
      = none ∧
    (⟨some 0, some 1, some [0, 1], some 7, some 7, [3, 4], 9⟩ :
      LiveGlobals).activeSession = some 7 ∧
    FxOp.closeSession ∉
      (stopLiveSession ⟨some 0, some 1, some [0, 1], some 7, some 7, [3, 4], 9⟩).2 := by
  exact ⟨rfl, rfl, by decide⟩

/-- C5 (amended): `stopLiveSession` tears down everything it acts on
directly — it closes each audio context that is present (closing the
input context stops the capture pipeline, closing the output context
stops scheduled playback output), stops every microphone track, calls
`stop()` on every scheduled source, and clears the global slot — but
it closes no transport connection: it only drops the session
reference. -/
theorem c5_stop_full_teardown_amended (g : LiveGlobals) :
    globalsCleared (stopLiveSession g).1 ∧
    (g.activeInputContext.isSome = true →
      FxOp.closeInputContext ∈ (stopLiveSession g).2) ∧
    (g.activeOutputContext.isSome = true →
      FxOp.closeOutputContext ∈ (stopLiveSession g).2) ∧
    (∀ ts, g.activeMediaStream = some ts →
      ∀ t ∈ ts, FxOp.stopTrack t ∈ (stopLiveSession g).2) ∧
    (∀ s ∈ g.activeSources, FxOp.stopSource s ∈ (stopLiveSession g).2) ∧
    FxOp.closeSession ∉ (stopLiveSession g).2 := by
  obtain ⟨ic, oc, ms, se, sp, src, nst⟩ := g
  refine ⟨⟨rfl, rfl, rfl, rfl, rfl, rfl, rfl⟩, ?_, ?_, ?_, ?_, ?_⟩
  · intro h
    rcases ic with _ | ic
    · simp at h
    · simp [stopLiveSession]
  · intro h
    rcases oc with _ | oc
    · simp at h
    · simp [stopLiveSession]
  · intro ts hts t ht
    rcases ms with _ | ms
    · exact absurd hts (by simp)
    · have : ms = ts := by injection hts
      subst this
      simp only [stopLiveSession, List.mem_append]
      exact Or.inl (Or.inr (List.mem_map_of_mem _ ht))
  · intro s hs
    simp only [stopLiveSession, List.mem_append]
    exact Or.inr (List.mem_map_of_mem _ hs)
  · rcases ic with _ | ic <;> rcases oc with _ | oc <;> rcases ms with _ | ms <;>
      simp [stopLiveSession, List.mem_append, List.mem_map]

/-- Witness for the amended C5 at a fully populated state. -/
theorem c5_stop_full_teardown_amended_witness :
    globalsCleared (stopLiveSession ⟨some 0, some 1, some [2], some 7, some 7, [3], 9⟩).1 ∧
    FxOp.closeInputContext ∈
      (stopLiveSession ⟨some 0, some 1, some [2], some 7, some 7, [3], 9⟩).2 ∧
    FxOp.closeOutputContext ∈
      (stopLiveSession ⟨some 0, some 1, some [2], some 7, some 7, [3], 9⟩).2 ∧
    FxOp.stopTrack 2 ∈
      (stopLiveSession ⟨some 0, some 1, some [2], some 7, some 7, [3], 9⟩).2 ∧
    FxOp.stopSource 3 ∈
      (stopLiveSession ⟨some 0, some 1, some [2], some 7, some 7, [3], 9⟩).2 ∧
    FxOp.closeSession ∉
      (stopLiveSession ⟨some 0, some 1, some [2], some 7, some 7, [3], 9⟩).2 := by
  have h := c5_stop_full_teardown_amended ⟨some 0, some 1, some [2], some 7, some 7, [3], 9⟩
  exact ⟨h.1, h.2.1 rfl, h.2.2.1 rfl, h.2.2.2.1 [2] rfl 2 (by decide),
    h.2.2.2.2.1 3 (by decide), h.2.2.2.2.2⟩

/-- Host environment for one `startLiveSession` run: presence and
replies of the `aistudio` key-selection API, whether microphone
acquisition and the connection handshake succeed, the microphone track
ids, and the id of the session the handshake would resolve to. -/
structure StartEnv where
  aistudioPresent : Bool
  hasSelectedApiKey : Bool
  openSelectKeyOk : Bool
  getUserMediaOk : Bool
  connectOk : Bool
  micTracks : List Nat
  sessionId : Nat
deriving DecidableEq, Repr

/-- Synchronous prefix of `startLiveSession` (line 468): the
unconditional `stopLiveSession()` before anything else. -/
def startSegStop (g : LiveGlobals) : LiveGlobals := (stopLiveSession g).1

/-- `startLiveSession` segment between the key-selection awaits and the
`getUserMedia` await (lines 482–489): creates the fresh client and both
audio contexts. -/
def startSegContexts (g : LiveGlobals) : LiveGlobals :=
  { g with activeInputContext := some 0, activeOutputContext := some 1 }

/-- `startLiveSession` segment entered when `getUserMedia` resolves
(lines 491–494): stores the microphone stream, then installs the
connection promise. -/
def startSegConnect (env : StartEnv) (g : LiveGlobals) : LiveGlobals :=
  { g with activeMediaStream := some env.micTracks
           sessionPromise := some env.sessionId }

/-- `startLiveSession` final segment, entered when the connection
promise resolves (line 566): stores the resolved session in the global
slot — unconditionally, with no check that this call is still the
active one. -/
def startSegResolve (env : StartEnv) (g : LiveGlobals) : LiveGlobals :=
  { g with activeSession := some env.sessionId }

/-- The interleaving in which the user calls `stopLiveSession` while
`startLiveSession` is suspended awaiting the connection promise
(`await sessionPromise`, line 566), after which the promise resolves
and the final segment of `startLiveSession` runs. -/
def stopDuringStartRun (env : StartEnv) : LiveGlobals :=
  startSegResolve env
    (stopLiveSession (startSegConnect env (startSegContexts (startSegStop initialGlobals)))).1

/-- C6 is false on the code: `startLiveSession` performs no "am I still
the active session" re-check after its awaits.  In the concrete
interleaving where `stopLiveSession` runs while `startLiveSession` is
awaiting the connection promise, the settled state is not fully torn
down: the resumed final segment has reinstalled the session
reference. -/
theorem c6_stop_during_start_counterexample :
    ¬ globalsCleared (stopDuringStartRun ⟨true, true, true, true, true, [0], 7⟩) ∧
    (stopDuringStartRun ⟨true, true, true, true, true, [0], 7⟩).activeSession = some 7 := by
  constructor
  · intro h
    exact absurd h.1 (by decide)
  · rfl

/-- C6 (amended): `startLiveSession` does not re-check whether it is
still the active session after its awaits; when `stopLiveSession` runs
while `startLiveSession` awaits the connection handshake, the settled
state is not fully torn down — the final segment reinstalls the session
reference (the other slots stay as the interleaved teardown left
them), and a further `stopLiveSession` call is needed to clear it. -/
theorem c6_stop_during_start_amended (env : StartEnv) :
    (stopDuringStartRun env).activeSession = some env.sessionId ∧
    ¬ globalsCleared (stopDuringStartRun env) ∧
    globalsCleared (stopLiveSession (stopDuringStartRun env)).1 := by
  refine ⟨rfl, fun h => ?_, ⟨rfl, rfl, rfl, rfl, rfl, rfl, rfl⟩⟩
  have h1 : (stopDuringStartRun env).activeSession = none := h.1
  rw [show (stopDuringStartRun env).activeSession = some env.sessionId from rfl] at h1
  exact Option.noConfusion h1

/-- `startLiveSession` (lines 467–573) run to settlement with no
concurrent caller, in host environment `env`.  Each failable await of
the try block, when it fails, jumps to the catch handler (lines
568–572), which reports status `error` and runs `stopLiveSession` on
the globals as they stand at the failure point; the function then
returns normally (the exception does not propagate).  The result is
the settled globals together with the list of statuses reported
through `onStatus` by the function body itself (`connected`,
`disconnected` and callback-driven errors arrive later through the
transport callbacks, not in this chain). -/
def startLiveSession (env : StartEnv) (g0 : LiveGlobals) :
    LiveGlobals × List String :=
  let g1 := startSegStop g0
  if env.aistudioPresent && !env.hasSelectedApiKey && !env.openSelectKeyOk then
    ((stopLiveSession g1).1, ["connecting", "error"])
  else
    let g2 := startSegContexts g1
    if !env.getUserMediaOk then
      ((stopLiveSession g2).1, ["connecting", "error"])
    else
      let g3 := startSegConnect env g2
      if !env.connectOk then
        ((stopLiveSession g3).1, ["connecting", "error"])
      else
        (startSegResolve env g3, ["connecting"])

/-- C8: when any awaited setup step inside `startLiveSession` fails —
credential selection (`openSelectKey` rejects when the key is absent),
microphone acquisition, or the connection handshake — the function
settles normally (no exception past its boundary: the embedding is
total and the catch handler is the only failure path), reports
`connecting` then `error` through `onStatus`, and leaves the globals
fully torn down via `stopLiveSession`. -/
theorem c8_setup_failure_teardown (env : StartEnv) (g0 : LiveGlobals)
    (hfail : (env.aistudioPresent && !env.hasSelectedApiKey && !env.openSelectKeyOk) = true
      ∨ env.getUserMediaOk = false ∨ env.connectOk = false) :
    (startLiveSession env g0).2 = ["connecting", "error"] ∧
    globalsCleared (startLiveSession env g0).1 := by
  simp only [startLiveSession]
  split
  · exact ⟨rfl, rfl, rfl, rfl, rfl, rfl, rfl, rfl⟩
  · next hkey =>
      split
      · exact ⟨rfl, rfl, rfl, rfl, rfl, rfl, rfl, rfl⟩
      · next hmic =>
          split
          · exact ⟨rfl, rfl, rfl, rfl, rfl, rfl, rfl, rfl⟩
          · next hcon =>
              exfalso
              rcases hfail with h | h | h
              · exact hkey h
              · rw [h] at hmic
                exact hmic rfl
              · rw [h] at hcon
                exact hcon rfl

/-- Witness for C8 in a concrete environment where the connection
handshake is rejected (microphone granted, key present). -/
theorem c8_setup_failure_teardown_witness :
    (startLiveSession ⟨true, true, true, true, false, [], 7⟩ initialGlobals).2 =
      ["connecting", "error"] ∧
    globalsCleared (startLiveSession ⟨true, true, true, true, false, [], 7⟩ initialGlobals).1 :=
  c8_setup_failure_teardown ⟨true, true, true, true, false, [], 7⟩ initialGlobals
    (Or.inr (Or.inr rfl))

/-- Crop rectangle state of the `ImageCropper` component, in displayed
image coordinates. -/
structure CropRect where
  x : ℚ
  y : ℚ
  width : ℚ
  height : ℚ
deriving DecidableEq, Repr

/-- The interaction recorded on pointer-down: a whole-rectangle move,
or a resize on a handle; the handle string is queried per direction
letter with `includes`, as in the source. -/
inductive CropInteraction where
  | move
  | resize (handle : String)
deriving DecidableEq, Repr

/-- The east edit of the resize branch of `handlePointerMove` (lines
72–74): when the handle contains the letter, the width of the running
rectangle is clamped between `minSize = 40` and the room left of the
fixed west edge, `imgW - startCrop.x`. -/
def resizeEast (startCrop : CropRect) (imgW deltaX : ℚ) (hasE : Bool)
    (c : CropRect) : CropRect :=
  if hasE then
    { c with width := max 40 (min (startCrop.width + deltaX) (imgW - startCrop.x)) }
  else c

/-- The south edit (lines 75–77), symmetric to the east edit. -/
def resizeSouth (startCrop : CropRect) (imgH deltaY : ℚ) (hasS : Bool)
    (c : CropRect) : CropRect :=
  if hasS then
    { c with height := max 40 (min (startCrop.height + deltaY) (imgH - startCrop.y)) }
  else c

/-- The west edit (lines 78–83): the drag delta is clamped to
`[-startCrop.x, startCrop.width - minSize]` and applied to `x` and
`width` together, leaving `x + width` unchanged. -/
def resizeWest (startCrop : CropRect) (deltaX : ℚ) (hasW : Bool)
    (c : CropRect) : CropRect :=
  if hasW then
    { c with
      x := startCrop.x + min (max deltaX (-startCrop.x)) (startCrop.width - 40)
      width := startCrop.width - min (max deltaX (-startCrop.x)) (startCrop.width - 40) }
  else c

/-- The north edit (lines 84–89), symmetric to the west edit. -/
def resizeNorth (startCrop : CropRect) (deltaY : ℚ) (hasN : Bool)
    (c : CropRect) : CropRect :=
  if hasN then
    { c with
      y := startCrop.y + min (max deltaY (-startCrop.y)) (startCrop.height - 40)
      height := startCrop.height - min (max deltaY (-startCrop.y)) (startCrop.height - 40) }
  else c

/-- `handlePointerMove` of `ImageCropper` (lines 53–93): computes the
new crop rectangle from the crop recorded at pointer-down
(`startCrop`), the pointer deltas since pointer-down, and the displayed
image size.  A move clamps the position into the image; a resize
applies the east, south, west and north edits in source order, one for
each direction letter the handle contains. -/
def handlePointerMove (startCrop : CropRect) (imgW imgH deltaX deltaY : ℚ)
    (interaction : CropInteraction) : CropRect :=
  match interaction with
  | .move =>
      { startCrop with
        x := min (max (startCrop.x + deltaX) 0) (imgW - startCrop.width)
        y := min (max (startCrop.y + deltaY) 0) (imgH - startCrop.height) }
  | .resize handle =>
      resizeNorth startCrop deltaY (handle.contains 'n')
        (resizeWest startCrop deltaX (handle.contains 'w')
          (resizeSouth startCrop imgH deltaY (handle.contains 's')
            (resizeEast startCrop imgW deltaX (handle.contains 'e') startCrop)))

/-- Horizontal third of the crop invariant. -/
def validX (c : CropRect) (imgW : ℚ) : Prop :=
  0 ≤ c.x ∧ c.x + c.width ≤ imgW ∧ 40 ≤ c.width

/-- Vertical third of the crop invariant. -/
def validY (c : CropRect) (imgH : ℚ) : Prop :=
  0 ≤ c.y ∧ c.y + c.height ≤ imgH ∧ 40 ≤ c.height

/-- The crop invariant: inside the displayed image, at least the fixed
minimum size (40 display pixels) in each dimension. -/
def validCrop (c : CropRect) (imgW imgH : ℚ) : Prop :=
  0 ≤ c.x ∧ 0 ≤ c.y ∧ c.x + c.width ≤ imgW ∧ c.y + c.height ≤ imgH ∧
  40 ≤ c.width ∧ 40 ≤ c.height

instance (c : CropRect) (imgW imgH : ℚ) : Decidable (validCrop c imgW imgH) := by
  unfold validCrop
  infer_instance

theorem validX_of_eq {a b : CropRect} {imgW : ℚ} (hx : a.x = b.x)
    (hw : a.width = b.width) (h : validX b imgW) : validX a imgW := by
  unfold validX at h ⊢
  rw [hx, hw]
  exact h

theorem validY_of_eq {a b : CropRect} {imgH : ℚ} (hy : a.y = b.y)
    (hh : a.height = b.height) (h : validY b imgH) : validY a imgH := by
  unfold validY at h ⊢
  rw [hy, hh]
  exact h

theorem resizeEast_y (s : CropRect) (imgW dX : ℚ) (b : Bool) (c : CropRect) :
    (resizeEast s imgW dX b c).y = c.y := by cases b <;> rfl

theorem resizeEast_height (s : CropRect) (imgW dX : ℚ) (b : Bool) (c : CropRect) :
    (resizeEast s imgW dX b c).height = c.height := by cases b <;> rfl

theorem resizeSouth_x (s : CropRect) (imgH dY : ℚ) (b : Bool) (c : CropRect) :
    (resizeSouth s imgH dY b c).x = c.x := by cases b <;> rfl

theorem resizeSouth_width (s : CropRect) (imgH dY : ℚ) (b : Bool) (c : CropRect) :
    (resizeSouth s imgH dY b c).width = c.width := by cases b <;> rfl

theorem resizeWest_y (s : CropRect) (dX : ℚ) (b : Bool) (c : CropRect) :
    (resizeWest s dX b c).y = c.y := by cases b <;> rfl

theorem resizeWest_height (s : CropRect) (dX : ℚ) (b : Bool) (c : CropRect) :
    (resizeWest s dX b c).height = c.height := by cases b <;> rfl

theorem resizeNorth_x (s : CropRect) (dY : ℚ) (b : Bool) (c : CropRect) :
    (resizeNorth s dY b c).x = c.x := by cases b <;> rfl

theorem resizeNorth_width (s : CropRect) (dY : ℚ) (b : Bool) (c : CropRect) :
    (resizeNorth s dY b c).width = c.width := by cases b <;> rfl

theorem resizeEast_validX (s : CropRect) (imgW dX : ℚ) (b : Bool) (c : CropRect)
    (hs : validX s imgW) (hcx : c.x = s.x) (hc : validX c imgW) :
    validX (resizeEast s imgW dX b c) imgW := by
  cases b
  · exact hc
  · obtain ⟨s1, s2, s3⟩ := hs
    obtain ⟨c1, c2, c3⟩ := hc
    unfold resizeEast
    rw [if_pos rfl]
    unfold validX
    dsimp only
    refine ⟨c1, ?_, le_max_left _ _⟩
    rw [hcx]
    simp only [max_def, min_def]
    split_ifs <;> linarith

theorem resizeSouth_validY (s : CropRect) (imgH dY : ℚ) (b : Bool) (c : CropRect)
    (hs : validY s imgH) (hcy : c.y = s.y) (hc : validY c imgH) :
    validY (resizeSouth s imgH dY b c) imgH := by
  cases b
  · exact hc
  · obtain ⟨s1, s2, s3⟩ := hs
    obtain ⟨c1, c2, c3⟩ := hc
    unfold resizeSouth
    rw [if_pos rfl]
    unfold validY
    dsimp only
    refine ⟨c1, ?_, le_max_left _ _⟩
    rw [hcy]
    simp only [max_def, min_def]
    split_ifs <;> linarith

theorem resizeWest_validX (s : CropRect) (dX imgW : ℚ) (b : Bool) (c : CropRect)
    (hs : validX s imgW) (hc : validX c imgW) :
    validX (resizeWest s dX b c) imgW := by
  cases b
  · exact hc
  · obtain ⟨s1, s2, s3⟩ := hs
    unfold resizeWest
    rw [if_pos rfl]
    unfold validX
    dsimp only
    refine ⟨?_, ?_, ?_⟩ <;> (simp only [max_def, min_def]; split_ifs <;> linarith)

theorem resizeNorth_validY (s : CropRect) (dY imgH : ℚ) (b : Bool) (c : CropRect)
    (hs : validY s imgH) (hc : validY c imgH) :
    validY (resizeNorth s dY b c) imgH := by
  cases b
  · exact hc
  · obtain ⟨s1, s2, s3⟩ := hs
    unfold resizeNorth
    rw [if_pos rfl]
    unfold validY
    dsimp only
    refine ⟨?_, ?_, ?_⟩ <;> (simp only [max_def, min_def]; split_ifs <;> linarith)

theorem resizeWest_sum (s : CropRect) (dX : ℚ) (c : CropRect) :
    (resizeWest s dX true c).x + (resizeWest s dX true c).width = s.x + s.width := by
  unfold resizeWest
  rw [if_pos rfl]
  dsimp only
  ring

theorem resizeNorth_sum (s : CropRect) (dY : ℚ) (c : CropRect) :
    (resizeNorth s dY true c).y + (resizeNorth s dY true c).height = s.y + s.height := by
  unfold resizeNorth
  rw [if_pos rfl]
  dsimp only
  ring

/-- C9: every intermediate pointer-move step, on any handle, maps a
crop rectangle satisfying the six constraints (nonnegative origin,
inside the displayed image, at least `minSize = 40` in each dimension)
to a rectangle that still satisfies all six; and a drag on a handle
containing the west (resp. north) letter preserves `x + width`
(resp. `y + height`) exactly. -/
theorem c9_crop_invariant (startCrop : CropRect) (imgW imgH deltaX deltaY : ℚ)
    (interaction : CropInteraction) (hv : validCrop startCrop imgW imgH) :
    validCrop (handlePointerMove startCrop imgW imgH deltaX deltaY interaction) imgW imgH ∧
    (∀ handle, interaction = CropInteraction.resize handle →
      handle.contains 'w' = true →
      (handlePointerMove startCrop imgW imgH deltaX deltaY interaction).x +
        (handlePointerMove startCrop imgW imgH deltaX deltaY interaction).width =
        startCrop.x + startCrop.width) ∧
    (∀ handle, interaction = CropInteraction.resize handle →
      handle.contains 'n' = true →
      (handlePointerMove startCrop imgW imgH deltaX deltaY interaction).y +
        (handlePointerMove startCrop imgW imgH deltaX deltaY interaction).height =
        startCrop.y + startCrop.height) := by
  obtain ⟨h1, h2, h3, h4, h5, h6⟩ := hv
  have hvX : validX startCrop imgW := ⟨h1, h3, h5⟩
  have hvY : validY startCrop imgH := ⟨h2, h4, h6⟩
  cases interaction with
  | move =>
      refine ⟨?_, fun handle heq => CropInteraction.noConfusion heq,
        fun handle heq => CropInteraction.noConfusion heq⟩
      unfold validCrop handlePointerMove
      dsimp only
      refine ⟨?_, ?_, ?_, ?_, ?_, ?_⟩ <;>
        first
        | linarith
        | (simp only [min_def, max_def]; split_ifs <;> linarith)
  | resize handle =>
      have hAX : validX (resizeEast startCrop imgW deltaX (handle.contains 'e')
          startCrop) imgW :=
        resizeEast_validX startCrop imgW deltaX (handle.contains 'e') startCrop hvX rfl hvX
      have hAY : validY (resizeEast startCrop imgW deltaX (handle.contains 'e')
          startCrop) imgH :=
        validY_of_eq (resizeEast_y _ _ _ _ _) (resizeEast_height _ _ _ _ _) hvY
      have hBY : validY (resizeSouth startCrop imgH deltaY (handle.contains 's')
          (resizeEast startCrop imgW deltaX (handle.contains 'e') startCrop)) imgH :=
        resizeSouth_validY startCrop imgH deltaY (handle.contains 's') _ hvY
          (resizeEast_y _ _ _ _ _) hAY
      have hBX : validX (resizeSouth startCrop imgH deltaY (handle.contains 's')
          (resizeEast startCrop imgW deltaX (handle.contains 'e') startCrop)) imgW :=
        validX_of_eq (resizeSouth_x _ _ _ _ _) (resizeSouth_width _ _ _ _ _) hAX
      have hCX : validX (resizeWest startCrop deltaX (handle.contains 'w')
          (resizeSouth startCrop imgH deltaY (handle.contains 's')
            (resizeEast startCrop imgW deltaX (handle.contains 'e') startCrop))) imgW :=
        resizeWest_validX startCrop deltaX imgW (handle.contains 'w') _ hvX hBX
      have hCY : validY (resizeWest startCrop deltaX (handle.contains 'w')
          (resizeSouth startCrop imgH deltaY (handle.contains 's')
            (resizeEast startCrop imgW deltaX (handle.contains 'e') startCrop))) imgH :=
        validY_of_eq (resizeWest_y _ _ _ _) (resizeWest_height _ _ _ _) hBY
      have hDY : validY (resizeNorth startCrop deltaY (handle.contains 'n')
          (resizeWest startCrop deltaX (handle.contains 'w')
            (resizeSouth startCrop imgH deltaY (handle.contains 's')
              (resizeEast startCrop imgW deltaX (handle.contains 'e') startCrop)))) imgH :=
        resizeNorth_validY startCrop deltaY imgH (handle.contains 'n') _ hvY hCY
      have hDX : validX (resizeNorth startCrop deltaY (handle.contains 'n')
          (resizeWest startCrop deltaX (handle.contains 'w')
            (resizeSouth startCrop imgH deltaY (handle.contains 's')
              (resizeEast startCrop imgW deltaX (handle.contains 'e') startCrop)))) imgW :=
        validX_of_eq (resizeNorth_x _ _ _ _) (resizeNorth_width _ _ _ _) hCX
      refine ⟨⟨hDX.1, hDY.1, hDX.2.1, hDY.2.1, hDX.2.2, hDY.2.2⟩, ?_, ?_⟩
      · intro handle2 heq hcw
        injection heq with h7
        subst h7
        show (resizeNorth startCrop deltaY (handle.contains 'n') _).x +
          (resizeNorth startCrop deltaY (handle.contains 'n') _).width =
          startCrop.x + startCrop.width
        rw [resizeNorth_x, resizeNorth_width, hcw]
        exact resizeWest_sum startCrop deltaX _
      · intro handle2 heq hcn
        injection heq with h7
        subst h7
        show (resizeNorth startCrop deltaY (handle.contains 'n') _).y +
          (resizeNorth startCrop deltaY (handle.contains 'n') _).height =
          startCrop.y + startCrop.height
        rw [hcn]
        exact resizeNorth_sum startCrop deltaY _

/-- Witness for C9: dragging the `se` handle of a 100×100 crop on a
200×200 displayed image far past the opposite corner still yields a
valid rectangle. -/
theorem c9_crop_invariant_witness :
    validCrop (handlePointerMove ⟨10, 10, 100, 100⟩ 200 200 (-500) (-500)
      (CropInteraction.resize "se")) 200 200 :=
  (c9_crop_invariant ⟨10, 10, 100, 100⟩ 200 200 (-500) (-500)
    (CropInteraction.resize "se") (by norm_num [validCrop])).1

/-- Witness for the amended C6 in a concrete environment. -/
theorem c6_stop_during_start_amended_witness :
    (stopDuringStartRun ⟨true, true, true, true, true, [0], 7⟩).activeSession = some 7 ∧
    ¬ globalsCleared (stopDuringStartRun ⟨true, true, true, true, true, [0], 7⟩) ∧
    globalsCleared
      (stopLiveSession (stopDuringStartRun ⟨true, true, true, true, true, [0], 7⟩)).1 :=
  c6_stop_during_start_amended ⟨true, true, true, true, true, [0], 7⟩
